import Mathlib

/-!
Verification development for the cannondb repository.

This file gives a shallow embedding, in Lean, of the parts of cannondb that
the specification's claims are about:

* src/cannondb/btree.py    — the in-memory B-tree (class BTree / _BNode),
  embedded as a state machine over an explicit object heap (Python object
  references become natural-number ids; each Python statement that mutates
  an object becomes one heap update, in source order);
* src/cannondb/node.py     — BNode.split together with
  FileHandler.next_available_page from src/cannondb/handler.py;
* src/cannondb/handler.py  — the WAL frame protocol (WAL._add_frame,
  WAL.set_page, WAL._index_frame) over an explicit byte-list file, and
  FileHandler._load_page_gc;
* src/cannondb/utils.py    — class LRUCache.

Keys and values of the in-memory B-tree are embedded as natural numbers
(the Python code is polymorphic; the claims only need one ordered key type
and one value type).  Python exceptions become explicit error values;
loops whose termination depends on well-formedness of the object graph
take a fuel parameter and return none when the fuel runs out (a real run
of the Python code on the corresponding state would not terminate either,
or would fail on an attribute access, once the graph is malformed).
-/

namespace Cannon

/-- Python exceptions that the embedded code can raise. -/
inductive PyErr where
  | valueError
  | keyError
  | runtimeError
  | endOfFileError
  deriving Repr, DecidableEq

deriving instance DecidableEq for Except

/-! ## btree.py : the in-memory BTree -/

namespace BT

/-- One _BNode object of src/cannondb/btree.py: slots keys, values, children.
children holds heap ids of child node objects; it is empty for a leaf. -/
structure BNode where
  keys : List Nat
  values : List Nat
  children : List Nat
  deriving Repr, DecidableEq

/-- The Python object heap: node id to node object.  Later bindings for an id
shadow earlier ones through hset; hget of an unbound id yields an empty node
(unreachable for states produced by the public BTree operations). -/
def Heap := List (Nat × BNode)

instance : DecidableEq Heap := by unfold Heap; infer_instance

instance : Repr Heap := by unfold Heap; infer_instance

/-- Read the object bound to id i. -/
def hget (h : Heap) (i : Nat) : BNode :=
  match h.find? (fun p => p.1 == i) with
  | some p => p.2
  | none => ⟨[], [], []⟩

/-- Bind id i to node n (update in place if bound, append otherwise). -/
def hset (h : Heap) (i : Nat) (n : BNode) : Heap :=
  match h with
  | [] => [(i, n)]
  | p :: rest => if p.1 == i then (i, n) :: rest else p :: hset rest i n

/-- Mutate the object bound to id i by f. -/
def hmod (h : Heap) (i : Nat) (f : BNode → BNode) : Heap :=
  hset h i (f (hget h i))

/-- State of one BTree object: the heap of its nodes, the _root id, a fresh-id
counter standing for Python object allocation, the order and the _count. -/
structure TreeState where
  heap : Heap
  root : Nat
  nextId : Nat
  order : Nat
  count : Int
  deriving Repr, DecidableEq

/-- BTree(order): a single empty leaf as root (btree.py line 198). -/
def mkTree (order : Nat) : TreeState :=
  { heap := [(0, ⟨[], [], []⟩)], root := 0, nextId := 1, order := order, count := 0 }

/-- math.ceil(order / 2) of btree.py (property min_elements, line 425). -/
def min_elements (order : Nat) : Nat := (order + 1) / 2

/-- Inner loop of bisect.bisect_left: binary search narrowing [lo, hi).  The
gas argument only makes the recursion structural; every iteration shrinks
hi - lo by at least one, so with the initial gas of bisect_left the
gas = 0 branch (which returns lo just as a finished loop would) is never
the one that ends the search. -/
def bisectLoop (a : List Nat) (x : Nat) : Nat → Nat → Nat → Nat
  | _, lo, 0 => lo
  | hi, lo, gas + 1 =>
    if lo < hi then
      let mid := (lo + hi) / 2
      if a.getD mid 0 < x then bisectLoop a x hi (mid + 1) gas
      else bisectLoop a x mid lo gas
    else lo

/-- bisect.bisect_left(a, x) as used by btree.py. -/
def bisect_left (a : List Nat) (x : Nat) : Nat :=
  bisectLoop a x a.length 0 (a.length + 1)

/-- Loop of BTree._path_to (btree.py lines 206-220): walk from the root
while the current node has children; ancestry collects (node id, index). -/
def pathToLoop (h : Heap) (key : Nat) :
    Nat → Nat → List (Nat × Nat) → Option (List (Nat × Nat))
  | 0, _, _ => none
  | fuel + 1, cur, acc =>
    let nd := hget h cur
    if nd.children = [] then
      some (acc ++ [(cur, bisect_left nd.keys key)])
    else
      let index := bisect_left nd.keys key
      let acc' := acc ++ [(cur, index)]
      if index < nd.keys.length ∧ nd.keys.getD index 0 = key then
        some acc'
      else
        pathToLoop h key fuel (nd.children.getD index 0) acc'

/-- BTree._path_to(key). -/
def path_to (fuel : Nat) (s : TreeState) (key : Nat) : Option (List (Nat × Nat)) :=
  pathToLoop s.heap key fuel s.root []

/-- BTree._present(key, ancestors) (btree.py lines 222-228). -/
def present (h : Heap) (ancestors : List (Nat × Nat)) (key : Nat) : Bool :=
  let last := (ancestors.getLastD (0, 0)).1
  let index := (ancestors.getLastD (0, 0)).2
  decide (index < (hget h last).keys.length) && ((hget h last).keys.getD index 0 == key)

/-- Generator BTree._get(key) (btree.py lines 277-283), run to its first step:
some v when the body reaches the yield, none when the body executes the
raise StopIteration statement. -/
def getRaw (fuel : Nat) (s : TreeState) (key : Nat) : Option (Option Nat) :=
  match path_to fuel s key with
  | none => none
  | some anc =>
    let nid := (anc.getLastD (0, 0)).1
    let index := (anc.getLastD (0, 0)).2
    if present s.heap anc key then some (some ((hget s.heap nid).values.getD index 0))
    else some none

/-- BTree.get(key, default) (btree.py lines 285-294).  The pep479 flag selects
the generator semantics of the running interpreter: on Python >= 3.7
(PEP 479, within the package's declared python_requires >= 3.5) the raise
StopIteration inside the _get generator body is replaced by a RuntimeError,
which the except StopIteration handler of get does not catch; on
Python 3.5/3.6 the StopIteration propagates out of next() and get returns
the default. -/
def get (pep479 : Bool) (fuel : Nat) (s : TreeState) (key default : Nat) :
    Option (Except PyErr Nat) :=
  match getRaw fuel s key with
  | none => none
  | some (some v) => some (.ok v)
  | some none => if pep479 then some (.error .runtimeError) else some (.ok default)

/-- Python list index resolution for list.pop(i): negative i counts from the
end.  Callers of the embedded code only pass indices valid for Python. -/
def pyIdx (len : Nat) (i : Int) : Nat :=
  if i < 0 then len - (-i).toNat else i.toNat

/-- _BNode.lateral(parent, parent_index, target, target_index)
(btree.py lines 24-41).  sid is self's id; reads and writes go through the
heap in the source's statement order, which models Python reference
semantics exactly. -/
def lateral (h : Heap) (sid pid : Nat) (parent_index : Nat) (tid target_index : Nat) :
    Heap :=
  if parent_index > target_index then
    -- target.keys.append(parent.keys[target_index])
    let h := hmod h tid (fun t => { t with keys := t.keys ++ [(hget h pid).keys.getD target_index 0] })
    -- target.values.append(parent.values[target_index])
    let h := hmod h tid (fun t => { t with values := t.values ++ [(hget h pid).values.getD target_index 0] })
    -- parent.keys[target_index] = self.keys.pop(0)
    let k0 := (hget h sid).keys.headD 0
    let h := hmod h sid (fun n => { n with keys := n.keys.tail })
    let h := hmod h pid (fun p => { p with keys := p.keys.set target_index k0 })
    -- parent.values[target_index] = self.values.pop(0)
    let v0 := (hget h sid).values.headD 0
    let h := hmod h sid (fun n => { n with values := n.values.tail })
    let h := hmod h pid (fun p => { p with values := p.values.set target_index v0 })
    -- if self.children: target.children.append(self.children.pop(0))
    if (hget h sid).children ≠ [] then
      let c0 := (hget h sid).children.headD 0
      let h := hmod h sid (fun n => { n with children := n.children.tail })
      hmod h tid (fun t => { t with children := t.children ++ [c0] })
    else h
  else
    -- target.keys.insert(0, parent.keys[parent_index])
    let h := hmod h tid (fun t => { t with keys := (hget h pid).keys.getD parent_index 0 :: t.keys })
    -- target.values.insert(0, parent.values[parent_index])
    let h := hmod h tid (fun t => { t with values := (hget h pid).values.getD parent_index 0 :: t.values })
    -- parent.keys[parent_index] = self.keys.pop()
    let kl := (hget h sid).keys.getLastD 0
    let h := hmod h sid (fun n => { n with keys := n.keys.dropLast })
    let h := hmod h pid (fun p => { p with keys := p.keys.set parent_index kl })
    -- parent.values[parent_index] = self.values.pop()
    let vl := (hget h sid).values.getLastD 0
    let h := hmod h sid (fun n => { n with values := n.values.dropLast })
    let h := hmod h pid (fun p => { p with values := p.values.set parent_index vl })
    -- if self.children: target.children.insert(0, self.children.pop())
    if (hget h sid).children ≠ [] then
      let cl := (hget h sid).children.getLastD 0
      let h := hmod h sid (fun n => { n with children := n.children.dropLast })
      hmod h tid (fun t => { t with children := cl :: t.children })
    else h

/-- Heap effect of the left-consolidation statements of _BNode.grow
(btree.py lines 105-114), one heap update per source statement in source
order: left_sib gains the separator pair and self's pairs (and children,
when self has any), and the parent loses the separator and self's child
slot. -/
def mergeLeftHeap (h : Heap) (sid pid lsid parent_index : Nat) : Heap :=
  -- left_sib.keys.append(parent.keys[parent_index - 1])
  let h := hmod h lsid (fun l => { l with keys := l.keys ++ [(hget h pid).keys.getD (parent_index - 1) 0] })
  -- left_sib.keys.extend(self.keys)
  let h := hmod h lsid (fun l => { l with keys := l.keys ++ (hget h sid).keys })
  -- left_sib.values.append(parent.values[parent_index - 1])
  let h := hmod h lsid (fun l => { l with values := l.values ++ [(hget h pid).values.getD (parent_index - 1) 0] })
  -- left_sib.values.extend(self.values)
  let h := hmod h lsid (fun l => { l with values := l.values ++ (hget h sid).values })
  -- if self.children: left_sib.children.extend(self.children)
  let h := if (hget h sid).children ≠ [] then
      hmod h lsid (fun l => { l with children := l.children ++ (hget h sid).children })
    else h
  -- parent.keys.pop(parent_index - 1); parent.values.pop(parent_index - 1)
  let h := hmod h pid (fun p => { p with keys := p.keys.eraseIdx (parent_index - 1) })
  let h := hmod h pid (fun p => { p with values := p.values.eraseIdx (parent_index - 1) })
  -- parent.children.pop(parent_index)
  hmod h pid (fun p => { p with children := p.children.eraseIdx parent_index })

/-- Heap effect of the right-consolidation statements of _BNode.grow
(btree.py lines 115-124).  Line 118 of the source appends parent.KEYS, not
parent.values, into self.values; the third update reproduces that
statement faithfully. -/
def mergeRightHeap (h : Heap) (sid pid rsid parent_index : Nat) : Heap :=
  -- self.keys.append(parent.keys[parent_index])
  let h := hmod h sid (fun n => { n with keys := n.keys ++ [(hget h pid).keys.getD parent_index 0] })
  -- self.keys.extend(right_sib.keys)
  let h := hmod h sid (fun n => { n with keys := n.keys ++ (hget h rsid).keys })
  -- self.values.append(parent.keys[parent_index])   [sic: source line 118]
  let h := hmod h sid (fun n => { n with values := n.values ++ [(hget h pid).keys.getD parent_index 0] })
  -- self.values.extend(right_sib.values)
  let h := hmod h sid (fun n => { n with values := n.values ++ (hget h rsid).values })
  -- if self.children: self.children.extend(right_sib.children)
  let h := if (hget h sid).children ≠ [] then
      hmod h sid (fun n => { n with children := n.children ++ (hget h rsid).children })
    else h
  -- parent.keys.pop(parent_index); parent.values.pop(parent_index)
  let h := hmod h pid (fun p => { p with keys := p.keys.eraseIdx parent_index })
  let h := hmod h pid (fun p => { p with values := p.values.eraseIdx parent_index })
  -- parent.children.pop(parent_index + 1)
  hmod h pid (fun p => { p with children := p.children.eraseIdx (parent_index + 1) })

/-- _BNode.grow(ancestors) (btree.py lines 82-132).  sid is self's id.
The source pops the last ancestors entry on entry; it is never called with
an empty list (remove guards with "and ancestors", the recursive call with
"if ancestors"), so the empty case below is dead code returning the state.
Line 118 of the source appends parent.KEYS (not parent.values) into
self.values when consolidating with the right sibling; the embedding
reproduces that statement faithfully.  When the source reads an attribute
of a right sibling that does not exist (a corner no tree reachable from
the public operations produces, since a parent always has at least two
children), Python would fail on None; the embedding reads the empty
default node instead.  The gas argument makes the recursion on the
shrinking ancestors list structural; callers pass the list length, which
bounds the recursion depth, so gas never runs out. -/
def grow : Nat → TreeState → Nat → List (Nat × Nat) → TreeState
  | 0, s, _, _ => s
  | gas + 1, s, sid, ancestors =>
  if ancestors = [] then s
  else
    let pid := (ancestors.getLastD (0, 0)).1
    let parent_index := (ancestors.getLastD (0, 0)).2
    let rest := ancestors.dropLast
    let h := s.heap
    -- try to borrow from the right sibling
    let rsid := (hget h pid).children.getD (parent_index + 1) 0
    if parent_index + 1 < (hget h pid).children.length ∧
        (hget h rsid).keys.length > min_elements s.order then
      { s with heap := lateral h rsid pid (parent_index + 1) sid parent_index }
    else
      -- try to borrow from the left sibling
      let lsid := (hget h pid).children.getD (parent_index - 1) 0
      if parent_index ≠ 0 ∧ (hget h lsid).keys.length > min_elements s.order then
        { s with heap := lateral h lsid pid (parent_index - 1) sid parent_index }
      else
        -- consolidate with a sibling - try left first
        let h' :=
          if parent_index ≠ 0 then mergeLeftHeap h sid pid lsid parent_index
          else mergeRightHeap h sid pid rsid parent_index
        let s' := { s with heap := h' }
        if (hget h' pid).keys.length < min_elements s.order then
          if rest ≠ [] then grow gas s' pid rest
          else if (hget h' pid).keys = [] then
            { s' with root := if parent_index ≠ 0 then lsid else sid }
          else s'
        else s'

/-- _BNode.split (btree.py lines 134-150).  Returns the new state, the id of
the freshly created sibling object, and the median key and value. -/
def bsplit (s : TreeState) (sid : Nat) : TreeState × Nat × Nat × Nat :=
  let nd := hget s.heap sid
  let center := nd.keys.length / 2
  let mid_key := nd.keys.getD center 0
  let mid_val := nd.values.getD center 0
  let sib : BNode := ⟨nd.keys.drop (center + 1), nd.values.drop (center + 1),
    nd.children.drop (center + 1)⟩
  let sibId := s.nextId
  let h := hset s.heap sibId sib
  let h := hset h sid ⟨nd.keys.take center, nd.values.take center, nd.children.take (center + 1)⟩
  ({ s with heap := h, nextId := s.nextId + 1 }, sibId, mid_key, mid_val)

/-- _BNode.shrink(ancestors) (btree.py lines 43-80).  Fuel bounds the upward
recursion; the source recurses with a popped ancestors list except in the
order = 0 corner where Python would loop forever creating roots. -/
def shrink (fuel : Nat) (s : TreeState) (sid : Nat) (ancestors : List (Nat × Nat)) :
    Option TreeState :=
  match fuel with
  | 0 => none
  | fuel + 1 =>
    let h := s.heap
    match ancestors.getLast? with
    | some (pid, parent_index) =>
      let rest := ancestors.dropLast
      let lsid := (hget h pid).children.getD (parent_index - 1) 0
      -- try to lend to the left neighboring sibling
      if parent_index ≠ 0 ∧ (hget h lsid).keys.length < s.order then
        some { s with heap := lateral h sid pid parent_index lsid (parent_index - 1) }
      else
        -- try the right neighbor
        let rsid := (hget h pid).children.getD (parent_index + 1) 0
        if parent_index + 1 < (hget h pid).children.length ∧
            (hget h rsid).keys.length < s.order then
          some { s with heap := lateral h sid pid parent_index rsid (parent_index + 1) }
        else
          let (s1, sibId, mid_key, mid_val) := bsplit s sid
          -- pass the median up to the parent
          let h1 := hmod s1.heap pid (fun p => { p with keys := p.keys.insertIdx parent_index mid_key })
          let h1 := hmod h1 pid (fun p => { p with values := p.values.insertIdx parent_index mid_val })
          let h1 := hmod h1 pid (fun p => { p with children := p.children.insertIdx (parent_index + 1) sibId })
          let s2 := { s1 with heap := h1 }
          if (hget h1 pid).keys.length > s.order then shrink fuel s2 pid rest
          else some s2
    | none =>
      -- not parent: make a fresh root branch with this node as only child
      let (s1, sibId, mid_key, mid_val) := bsplit s sid
      let pid := s1.nextId
      let h1 := hset s1.heap pid ⟨[], [], [sid]⟩
      let s2 := { s1 with heap := h1, nextId := s1.nextId + 1, root := pid }
      let h2 := hmod s2.heap pid (fun p => { p with keys := p.keys.insertIdx 0 mid_key })
      let h2 := hmod h2 pid (fun p => { p with values := p.values.insertIdx 0 mid_val })
      let h2 := hmod h2 pid (fun p => { p with children := p.children.insertIdx 1 sibId })
      let s3 := { s2 with heap := h2 }
      if (hget h2 pid).keys.length > s.order then shrink fuel s3 pid []
      else some s3

/-- _BNode.insert(index, key, value, ancestors) on a leaf
(btree.py lines 152-156). -/
def leafInsert (fuel : Nat) (s : TreeState) (sid index key value : Nat)
    (ancestors : List (Nat × Nat)) : Option TreeState :=
  let h := hmod s.heap sid (fun n => { n with keys := n.keys.insertIdx index key })
  let h := hmod h sid (fun n => { n with values := n.values.insertIdx index value })
  let s' := { s with heap := h }
  if (hget h sid).keys.length > s.order then shrink fuel s' sid ancestors
  else some s'

/-- Leaf branch of _BNode.remove (btree.py lines 186-190); idx may be the
Python index -1 from line 185. -/
def leafRemove (s : TreeState) (sid : Nat) (idx : Int) (ancestors : List (Nat × Nat)) :
    TreeState :=
  let h := hmod s.heap sid
    (fun n => { n with keys := n.keys.eraseIdx (pyIdx n.keys.length idx) })
  let h := hmod h sid
    (fun n => { n with values := n.values.eraseIdx (pyIdx n.values.length idx) })
  let s' := { s with heap := h }
  if (hget h sid).keys.length < min_elements s.order ∧ ancestors ≠ [] then
    grow ancestors.length s' sid ancestors
  else s'

/-- Walk of btree.py lines 165-167: follow children[0] while the descendant
has children, extending the additional ancestors with (node, 0). -/
def walkLeftmost (h : Heap) : Nat → Nat → List (Nat × Nat) →
    Option (Nat × List (Nat × Nat))
  | 0, _, _ => none
  | fuel + 1, cur, acc =>
    if (hget h cur).children = [] then some (cur, acc)
    else walkLeftmost h fuel ((hget h cur).children.headD 0) (acc ++ [(cur, 0)])

/-- Walk of btree.py lines 178-181: follow children[-1] while the descendant
has children, extending the additional ancestors with (node, len(children)-1). -/
def walkRightmost (h : Heap) : Nat → Nat → List (Nat × Nat) →
    Option (Nat × List (Nat × Nat))
  | 0, _, _ => none
  | fuel + 1, cur, acc =>
    if (hget h cur).children = [] then some (cur, acc)
    else walkRightmost h fuel ((hget h cur).children.getLastD 0)
      (acc ++ [(cur, (hget h cur).children.length - 1)])

/-- _BNode.remove(index, ancestors) (btree.py lines 158-190).  In the branch
case the recursive call always lands on a leaf (the walks stop at a node
without children), so it is inlined as leafRemove; the left-child fallback
passes the Python index len(children)-1 = -1 of line 185. -/
def removeAt (fuel : Nat) (s : TreeState) (nid index : Nat)
    (ancestors : List (Nat × Nat)) : Option TreeState :=
  let nd := hget s.heap nid
  if nd.children = [] then
    some (leafRemove s nid index ancestors)
  else
    -- try promoting from the right subtree first
    match walkLeftmost s.heap fuel (nd.children.getD (index + 1) 0) [(nid, index + 1)] with
    | none => none
    | some (descId, addAnc) =>
      if (hget s.heap descId).keys.length > min_elements s.order then
        let anc' := ancestors ++ addAnc
        let h := hmod s.heap nid
          (fun n => { n with keys := n.keys.set index ((hget s.heap descId).keys.getD 0 0) })
        let h := hmod h nid
          (fun n => { n with values := n.values.set index ((hget h descId).values.getD 0 0) })
        some (leafRemove { s with heap := h } descId 0 anc')
      else
        -- fall back to the left child
        match walkRightmost s.heap fuel (nd.children.getD index 0) [(nid, index)] with
        | none => none
        | some (descId2, addAnc2) =>
          let anc' := ancestors ++ addAnc2
          let h := hmod s.heap nid
            (fun n => { n with keys := n.keys.set index ((hget s.heap descId2).keys.getLastD 0) })
          let h := hmod h nid
            (fun n => { n with values := n.values.set index ((hget h descId2).values.getLastD 0) })
          some (leafRemove { s with heap := h } descId2
            ((hget h descId2).children.length - 1 : Int) anc')

/-- BTree.remove(key) (btree.py lines 267-275).  The result pairs the state
the operation left behind with the exception it raised, if any. -/
def remove (fuel : Nat) (s : TreeState) (key : Nat) :
    Option (TreeState × Option PyErr) :=
  match path_to fuel s key with
  | none => none
  | some anc =>
    if present s.heap anc key then
      let nid := (anc.getLastD (0, 0)).1
      let index := (anc.getLastD (0, 0)).2
      match removeAt fuel s nid index anc.dropLast with
      | none => none
      | some s' => some ({ s' with count := s'.count - 1 }, none)
    else some (s, some .valueError)

/-- Re-descend loop of BTree.insert (btree.py lines 245-248): while the node
has children, descend and extend ancestors. -/
def insertDescend (h : Heap) (key : Nat) :
    Nat → Nat → Nat → List (Nat × Nat) → Option (List (Nat × Nat))
  | 0, _, _, _ => none
  | fuel + 1, nid, index, anc =>
    if (hget h nid).children = [] then some anc
    else
      let nid' := (hget h nid).children.getD index 0
      let index' := bisect_left (hget h nid').keys key
      insertDescend h key fuel nid' index' (anc ++ [(nid', index')])

/-- BTree.insert(key, value, override) (btree.py lines 230-251).  Note the
source increments _count at line 251 on every path that does not raise,
including the override of an existing key. -/
def insert (fuel : Nat) (s : TreeState) (key value : Nat) (override : Bool) :
    Option (TreeState × Option PyErr) :=
  match path_to fuel s key with
  | none => none
  | some anc =>
    let nid := (anc.getLastD (0, 0)).1
    let index := (anc.getLastD (0, 0)).2
    if present s.heap anc key then
      if !override then some (s, some .valueError)
      else
        let h := hmod s.heap nid (fun n => { n with values := n.values.set index value })
        some ({ s with heap := h, count := s.count + 1 }, none)
    else
      match insertDescend s.heap key fuel nid index anc with
      | none => none
      | some anc2 =>
        let nid2 := (anc2.getLastD (0, 0)).1
        let index2 := (anc2.getLastD (0, 0)).2
        match leafInsert fuel s nid2 index2 key value anc2.dropLast with
        | none => none
        | some s' => some ({ s' with count := s'.count + 1 }, none)

/-- One step of the for-loop in _recurse of BTree.__iter__ (btree.py lines
323-326): emit the child's items, then the separating pair.  recurse is the
traversal of the next level down. -/
def iterStep (recurse : Nat → Option (List (Nat × Nat)))
    (acc : Option (List (Nat × Nat))) (c : Nat × (Nat × Nat)) :
    Option (List (Nat × Nat)) :=
  match acc with
  | none => none
  | some l =>
    match recurse c.1 with
    | none => none
    | some sub => some (l ++ sub ++ [c.2])

/-- Recursive generator _recurse of BTree.__iter__ (btree.py lines 320-334):
in-order traversal collecting (key, value) pairs.  zip truncates exactly as
Python's zip does. -/
def iterNode (h : Heap) : Nat → Nat → Option (List (Nat × Nat))
  | 0, _ => none
  | fuel + 1, nid =>
    let nd := hget h nid
    if nd.children = [] then some (nd.keys.zip nd.values)
    else
      let combos := nd.children.zip (nd.keys.zip nd.values)
      match combos.foldl (iterStep (fun c => iterNode h fuel c)) (some []) with
      | none => none
      | some l =>
        match iterNode h fuel (nd.children.getLastD 0) with
        | none => none
        | some last => some (l ++ last)

/-- The key column of BTree.__iter__ output. -/
def iterKeys (fuel : Nat) (s : TreeState) : Option (List Nat) :=
  match iterNode s.heap fuel s.root with
  | none => none
  | some l => some (l.map Prod.fst)

end BT

/-! ## Association lists standing for Python dicts (insertion-ordered) -/

/-- dict lookup d.get(k) / d[k] presence test. -/
def alGet? {α : Type} (l : List (Nat × α)) (k : Nat) : Option α :=
  (l.find? (fun p => p.1 == k)).map (fun p => p.2)

/-- dict assignment d[k] = v: update in place when bound, append otherwise
(Python dicts keep insertion order). -/
def alSet {α : Type} (l : List (Nat × α)) (k : Nat) (v : α) : List (Nat × α) :=
  match l with
  | [] => [(k, v)]
  | p :: rest => if p.1 == k then (k, v) :: rest else p :: alSet rest k v

/-- dict removal d.pop(k) / del d[k]: drop the binding of k. -/
def alPop {α : Type} (l : List (Nat × α)) (k : Nat) : List (Nat × α) :=
  match l with
  | [] => []
  | p :: rest => if p.1 == k then rest else p :: alPop rest k

/-- k in d. -/
def alHas {α : Type} (l : List (Nat × α)) (k : Nat) : Bool :=
  (alGet? l k).isSome

/-! ## Byte-level helpers shared by the handler.py embeddings -/

/-- int.to_bytes(w, 'big'): w bytes, big-endian (the value fits in the uses
the embedded code makes). -/
def natToBytes : Nat → Nat → List Nat
  | 0, _ => []
  | w + 1, n => natToBytes w (n / 256) ++ [n % 256]

/-- Width constants of src/cannondb/constants.py. -/
def FRAME_TYPE_LENGTH_LIMIT : Nat := 1

def PAGE_ADDRESS_LIMIT : Nat := 4

def PAGE_LENGTH_LIMIT : Nat := 3

def NODE_TYPE_LENGTH_LIMIT : Nat := 1

/-- utils.read_from_file(fd, start, stop) (utils.py lines 33-44): the byte
slice [start, stop), raising EndOfFileError when the file ends first. -/
def read_from_file (file : List Nat) (start stop : Nat) : Except PyErr (List Nat) :=
  if stop ≤ file.length then .ok ((file.drop start).take (stop - start))
  else .error .endOfFileError

/-- A file write at a seek position: overwrite in place, extending (and, were
it ever needed, zero-padding) at the end, as utils.write_to_file does after
a seek. -/
def writeAt (file : List Nat) (pos : Nat) (data : List Nat) : List Nat :=
  (file.take pos ++ List.replicate (pos - file.length) 0) ++ data ++
    file.drop (pos + data.length)

/-! ## handler.py : the write-ahead log -/

namespace WAL

/-- class FrameType of handler.py (lines 262-265). -/
inductive FrameType where
  | page
  | commitFrame
  | rollbackFrame
  deriving Repr, DecidableEq

/-- FrameType.value. -/
def FrameType.val : FrameType → Nat
  | .page => 1
  | .commitFrame => 2
  | .rollbackFrame => 3

/-- State of one WAL object: the bytes of the .wal file and the two
page-to-offset tables. -/
structure WALState where
  file : List Nat
  committed : List (Nat × Nat)
  not_committed : List (Nat × Nat)
  page_size : Nat
  deriving Repr, DecidableEq

/-- A fresh WAL on a new file: _create_header writes page_size on
PAGE_LENGTH_LIMIT bytes (handler.py lines 313-317). -/
def freshWAL (page_size : Nat) : WALState :=
  { file := natToBytes PAGE_LENGTH_LIMIT page_size, committed := [],
    not_committed := [], page_size := page_size }

/-- WAL._index_frame (handler.py lines 354-363). -/
def index_frame (s : WALState) (ft : FrameType) (page page_start : Nat) : WALState :=
  match ft with
  | .page => { s with not_committed := alSet s.not_committed page page_start }
  | .commitFrame =>
    let c2 := s.not_committed.foldl (fun c p => alSet c p.1 p.2) s.committed
    { s with committed := c2, not_committed := [] }
  | .rollbackFrame => { s with not_committed := [] }

/-- WAL._add_frame (handler.py lines 365-389).  The page argument is falsy in
Python when it is None or 0; after the guard, None is replaced by 0.  The
seek goes to the frame of an already committed page, else to the end of the
file.  The page_start passed to _index_frame is tell() - page_size; for
COMMIT/ROLLBACK frames Python computes a junk (possibly negative) value
there which _index_frame ignores, so the truncated Nat value used here is
observably the same. -/
def add_frame (s : WALState) (ft : FrameType) (pageArg : Option Nat)
    (page_dataArg : List Nat) : Except PyErr WALState :=
  if ft = .page ∧ (pageArg.getD 0 = 0 ∨ page_dataArg = []) then .error .valueError
  else if page_dataArg ≠ [] ∧ page_dataArg.length ≠ s.page_size then .error .valueError
  else
    let page := pageArg.getD 0
    let page_data := if ft ≠ .page then [] else page_dataArg
    let data := natToBytes FRAME_TYPE_LENGTH_LIMIT ft.val ++
      natToBytes PAGE_ADDRESS_LIMIT page ++ page_data
    let seek_pos :=
      if alHas s.committed page ∧ ft = .page then
        (alGet? s.committed page).getD 0 - FRAME_TYPE_LENGTH_LIMIT - PAGE_ADDRESS_LIMIT
      else s.file.length
    let file' := writeAt s.file seek_pos data
    let tell := seek_pos + data.length
    .ok (index_frame { s with file := file' } ft page (tell - s.page_size))

/-- WAL.set_page (handler.py lines 411-412). -/
def set_page (s : WALState) (page : Nat) (page_data : List Nat) :
    Except PyErr WALState :=
  add_frame s .page (some page) page_data

end WAL

/-! ## handler.py : freelist loading (FileHandler._load_page_gc) -/

namespace GC

/-- A dynamically-typed Python value, as far as the comparison in
_load_page_gc needs: a bytes object or an int. -/
inductive PyVal where
  | pybytes (bs : List Nat)
  | pyint (n : Nat)
  deriving Repr, DecidableEq

/-- Python == on these values: bytes compare equal to bytes elementwise, ints
to ints numerically, and a bytes object never equals an int (no implicit
conversion; b'\x02' == 2 is False). -/
def pyEq : PyVal → PyVal → Bool
  | .pybytes a, .pybytes b => a == b
  | .pyint a, .pyint b => a == b
  | _, _ => false

/-- One iteration of FileHandler._load_page_gc (handler.py lines 111-115):
read the one page-type byte at the page boundary and keep the offset when
it compares equal to the int 2 — the comparison the source writes is
page_type == 2 with page_type a bytes object.  An EndOfFileError from the
read propagates. -/
def scanPage (file : List Nat) (page_size : Nat) (acc : List Nat) (offset : Nat) :
    Except PyErr (List Nat) := do
  let page_start := offset * page_size
  let page_type ← read_from_file file page_start (page_start + NODE_TYPE_LENGTH_LIMIT)
  pure (if pyEq (.pybytes page_type) (.pyint 2) then acc ++ [offset] else acc)

/-- FileHandler._load_page_gc (handler.py lines 109-115): scan the page-type
byte of every page offset in range(1, last_page). -/
def load_page_gc (file : List Nat) (page_size last_page : Nat) :
    Except PyErr (List Nat) :=
  (List.range' 1 (last_page - 1)).foldlM (scanPage file page_size) []

end GC

/-! ## node.py : BNode.split, with page allocation from handler.py -/

namespace ND

/-- One BNode of src/cannondb/node.py, at the level BNode.split manipulates
it: contents is the sorted list of KeyValPair objects (embedded as
key-value pairs of naturals), children the list of child page numbers, and
page the node's own page number. -/
structure BNodeD where
  contents : List (Nat × Nat)
  children : List Nat
  page : Nat
  deriving Repr, DecidableEq

/-- The slice of FileHandler state that page allocation uses: the deprecated
page freelist and the high-water page counter. -/
structure GCState where
  page_GC : List Nat
  last_page : Nat
  deriving Repr, DecidableEq

/-- FileHandler._takeout_deprecated_page and next_available_page (handler.py
lines 134-138 and 193-201): pop the first freelist page if any; a falsy
(0) popped page, impossible in practice, would fall through to the counter
bump after being discarded, exactly as in the source. -/
def next_available_page (g : GCState) : Nat × GCState :=
  match g.page_GC with
  | p :: rest =>
    if p ≠ 0 then (p, { g with page_GC := rest })
    else (g.last_page + 1, { page_GC := rest, last_page := g.last_page + 1 })
  | [] => (g.last_page + 1, { g with last_page := g.last_page + 1 })

/-- BNode.split (node.py lines 636-651).  The fresh sibling object is built
with page=None, so BNode.__init__ (node.py line 300) assigns it
tree.next_available_page, which the engine forwards to
FileHandler.next_available_page; the self._dump() call at line 650 only
refreshes the node's serialized-image cache and changes none of the
logical fields, so it has no counterpart here. -/
def split (g : GCState) (s : BNodeD) : BNodeD × BNodeD × (Nat × Nat) × GCState :=
  let center := s.contents.length / 2
  let mid_pair := s.contents.getD center (0, 0)
  let alloc := next_available_page g
  let sibling : BNodeD :=
    { contents := s.contents.drop (center + 1),
      children := s.children.drop (center + 1), page := alloc.1 }
  let self' :=
    { s with
      contents := s.contents.take center,
      children := s.children.take (center + 1) }
  (self', sibling, mid_pair, alloc.2)

end ND

/-! ## utils.py : LRUCache -/

namespace LRU

/-- One LRUCache object: the dict contents (the class subclasses dict), the
lru recency list, and the capacity, where none stands for the
float('nan') that LRUCache.__init__ substitutes for a missing, None or 0
capacity (and a comparison with nan is always False, so such a cache never
evicts). -/
structure LRUCache where
  store : List (Nat × Nat)
  lru : List Nat
  capacity : Option Nat
  deriving Repr, DecidableEq

/-- LRUCache(capacity=c) (utils.py lines 104-113): capacity 0 is falsy, so
kwargs.pop('capacity', None) or float('nan') turns it into nan. -/
def init (c : Nat) : LRUCache :=
  { store := [], lru := [], capacity := if c = 0 then none else some c }

/-- LRUCache.refresh (utils.py lines 115-121): move key to the tail of lru
(list.remove drops the first occurrence). -/
def refresh (s : LRUCache) (key : Nat) : LRUCache :=
  let lru := if s.lru.contains key then s.lru.erase key else s.lru
  { s with lru := lru ++ [key] }

/-- LRUCache.get (utils.py lines 123-127): dict.get(key, default), then
refresh(key) even when the key is not stored. -/
def lruGet (s : LRUCache) (key : Nat) (default : Option Nat) :
    Option Nat × LRUCache :=
  let item := match alGet? s.store key with
    | some v => some v
    | none => default
  (item, refresh s key)

/-- len(self) > self.capacity of utils.py line 141; against the nan capacity
the comparison is False. -/
def overCap (s : LRUCache) (n : Nat) : Bool :=
  match s.capacity with
  | none => false
  | some c => n > c

/-- LRUCache.__setitem__ (utils.py lines 135-142).  When over capacity the
source runs self.pop(self.lru.pop(0)): the recency list gives up its head
first, then dict.pop — with no default argument — raises KeyError if that
head is not a stored key. -/
def setItem (s : LRUCache) (key value : Nat) : Except PyErr LRUCache :=
  let s := { s with store := alSet s.store key value }
  let s := refresh s key
  if overCap s s.store.length then
    let victim := s.lru.headD 0
    let s := { s with lru := s.lru.tail }
    match alGet? s.store victim with
    | some _ => .ok { s with store := alPop s.store victim }
    | none => .error .keyError
  else .ok s

/-- Run a list of put operations left to right, stopping at the first
exception. -/
def putMany (s : LRUCache) : List (Nat × Nat) → Except PyErr LRUCache
  | [] => .ok s
  | kv :: rest =>
    match setItem s kv.1 kv.2 with
    | .ok s' => putMany s' rest
    | .error e => .error e

/-- The operation sequence of claim C9 on a fresh cache of capacity c: one
get of the never-stored key 0, then c + 1 puts of the distinct keys
1 .. c + 1. -/
def overfillSeq (c : Nat) : Except PyErr LRUCache :=
  let s0 := init c
  let s1 := (lruGet s0 0 none).2
  putMany s1 ((List.range (c + 1)).map (fun i => (i + 1, 42)))

end LRU

/-! ## Concrete scenarios used by the claim theorems -/

namespace BT

/-- Run one mutating step, requiring it to complete without an exception. -/
def runStep (s : Option TreeState) (f : TreeState → Option (TreeState × Option PyErr)) :
    Option TreeState :=
  match s with
  | none => none
  | some st =>
    match f st with
    | some (s', none) => some s'
    | _ => none

/-- BTree(order=2); insert(1,101); insert(2,102); insert(3,103); remove(1).
The remove makes the left leaf under-full, both siblings are at the
minimum, so grow consolidates with the right sibling. -/
def c1Tree : Option TreeState :=
  runStep (runStep (runStep (runStep (some (mkTree 2))
    (fun s => insert 100 s 1 101 false))
    (fun s => insert 100 s 2 102 false))
    (fun s => insert 100 s 3 103 false))
    (fun s => remove 100 s 1)

/-- A one-entry tree: BTree(order=100); insert(5, 50). -/
def c2Tree : Option TreeState :=
  runStep (some (mkTree 100)) (fun s => insert 100 s 5 50 false)

/-- The state of a BTree(order=100) holding the single pair 5 -> 50, used as
a concrete instance for the override-insert theorems. -/
def t51 : TreeState :=
  { heap := [(0, ⟨[5], [50], []⟩)], root := 0, nextId := 1, order := 100, count := 1 }

/-- A four-node heap for the grow witness: branch 10 with keys 5, 9 over the
leaves 1 (one key), 2 (empty, just grown) and 3 (two keys). -/
def c8Heap : Heap :=
  [(10, ⟨[5, 9], [50, 90], [1, 2, 3]⟩), (1, ⟨[2], [20], []⟩),
   (2, ⟨[], [], []⟩), (3, ⟨[12, 15], [120, 150], []⟩)]

/-- The tree of c8Heap at order 2, so min_elements is 1. -/
def c8State : TreeState :=
  { heap := c8Heap, root := 10, nextId := 20, order := 2, count := 5 }

/-- Two heaps agree on everything the key structure of the tree depends on:
every object has the same keys, the same children and values of the same
length (an in-place value overwrite produces exactly such a pair). -/
def SameSkeleton (h h' : Heap) : Prop :=
  ∀ i, (hget h' i).keys = (hget h i).keys ∧
    (hget h' i).children = (hget h i).children ∧
    (hget h' i).values.length = (hget h i).values.length

end BT

/-- The cache state after the stray get of key 0 and j successful puts of
keys 1..j in claim C9's operation sequence. -/
def lruStateJ (c j : Nat) : LRU.LRUCache :=
  { store := (List.range' 1 j).map (fun k => (k, 42)),
    lru := 0 :: List.range' 1 j,
    capacity := some c }

/-- The data file of the C6 scenario: page size 4, two pages; page 1 carries
the page-type byte 2 (DEPRECATED) at its boundary. -/
def demoFile : List Nat := [0, 0, 4, 0] ++ [2, 5, 5, 5]

namespace WAL

/-- A fresh WAL with page size 4. -/
def w0 : WALState := freshWAL 4

/-- w0 after set_page(1, 9999). -/
def w1 : WALState := (set_page w0 1 [9, 9, 9, 9]).toOption.getD w0

/-- w1 with its PAGE frame moved to the committed table (the state after
WAL.commit, whose COMMIT frame bytes are irrelevant here, so the tables
are set directly to keep the scenario small). -/
def w1c : WALState :=
  { w1 with committed := w1.not_committed, not_committed := [] }

end WAL

/-! ## Heap lemmas -/

namespace BT

theorem hget_nil (i : Nat) : hget [] i = ⟨[], [], []⟩ := rfl

theorem hget_cons_eq (p : Nat × BNode) (rest : Heap) (i : Nat) (hp : p.1 = i) :
    hget (p :: rest) i = p.2 := by
  simp [hget, List.find?_cons_of_pos, hp]

theorem hget_cons_ne (p : Nat × BNode) (rest : Heap) (i : Nat) (hp : p.1 ≠ i) :
    hget (p :: rest) i = hget rest i := by
  have : (p.1 == i) = false := beq_eq_false_iff_ne.mpr hp
  simp [hget, List.find?_cons, this]

theorem hget_hset_same (h : Heap) (i : Nat) (n : BNode) : hget (hset h i n) i = n := by
  induction h with
  | nil => simpa [hset] using hget_cons_eq (i, n) [] i rfl
  | cons p rest ih =>
    by_cases hp : p.1 = i
    · simp only [hset, beq_iff_eq, hp, if_true]
      exact hget_cons_eq (i, n) rest i rfl
    · simp only [hset, beq_iff_eq, hp, if_false]
      rw [hget_cons_ne p _ i hp]
      exact ih

theorem hget_hset_other (h : Heap) (i j : Nat) (n : BNode) (hij : i ≠ j) :
    hget (hset h i n) j = hget h j := by
  induction h with
  | nil =>
    simp only [hset]
    rw [hget_cons_ne (i, n) [] j hij]
  | cons p rest ih =>
    by_cases hp : p.1 = i
    · simp only [hset, beq_iff_eq, hp, if_true]
      rw [hget_cons_ne (i, n) rest j hij, hget_cons_ne p rest j (hp ▸ hij)]
    · simp only [hset, beq_iff_eq, hp, if_false]
      by_cases hq : p.1 = j
      · rw [hget_cons_eq p _ j hq, hget_cons_eq p rest j hq]
      · rw [hget_cons_ne p _ j hq, hget_cons_ne p rest j hq]
        exact ih

end BT


end Cannon

/-! # Theorems for the claims -/

namespace Cannon

open BT

/-- Claim C1.  After the completed inserts of (1,101), (2,102), (3,103) into
a BTree of order 2 and the completed remove(1) — which triggers a
consolidation of the under-full left leaf with its right sibling — get(2)
returns 2, the key itself, instead of the inserted value 102, under either
generator semantics: _BNode.grow line 118 appends parent.keys, not
parent.values, into the merged node's values.  This refutes the claim that
get(k) returns the last value written for k across borrow/merge
rebalancing. -/
theorem C1_merge_right_corrupts_value :
    c1Tree.isSome = true ∧
    c1Tree.map (fun s => get true 100 s 2 0) = some (some (.ok 2)) ∧
    c1Tree.map (fun s => get false 100 s 2 0) = some (some (.ok 2)) ∧
    c1Tree.map (fun s => iterKeys 100 s) = some (some [2, 3]) := by
  decide

/-- Claim C2.  On an empty BTree, get(5, default=7) executes the
raise StopIteration inside the _get generator: under the generator
semantics of every Python from 3.7 on (the package declares
python_requires >= 3.5) that raise becomes a RuntimeError which the
except StopIteration handler of get does not catch, so get raises instead
of returning the default; only under the pre-3.7 semantics does it return
7.  For a present key (the one-entry c2Tree) get returns the stored value
under both semantics. -/
theorem C2_get_default_raises_under_pep479 :
    get true 100 (mkTree 100) 5 7 = some (.error .runtimeError) ∧
    get false 100 (mkTree 100) 5 7 = some (.ok 7) ∧
    c2Tree.map (fun s => get true 100 s 5 0) = some (some (.ok 50)) ∧
    c2Tree.map (fun s => get false 100 s 5 0) = some (some (.ok 50)) := by
  decide

/-- The bytes-against-int comparison in scanPage is False for every byte
read, so each scan step either propagates a read error or leaves the
accumulator untouched. -/
theorem scanFold_preserves_acc (file : List Nat) (ps : Nat) (offs : List Nat)
    (acc : List Nat) :
    offs.foldlM (GC.scanPage file ps) acc = .ok acc ∨
    ∃ e, offs.foldlM (GC.scanPage file ps) acc = .error e := by
  induction offs generalizing acc with
  | nil => left; rfl
  | cons o os ih =>
    rw [List.foldlM_cons]
    by_cases hr : o * ps + NODE_TYPE_LENGTH_LIMIT ≤ file.length
    · have hstep : GC.scanPage file ps acc o = .ok acc := by
        simp [GC.scanPage, read_from_file, hr, GC.pyEq]
      rw [hstep]
      exact ih acc
    · have hstep : GC.scanPage file ps acc o = .error .endOfFileError := by
        simp [GC.scanPage, read_from_file, hr]
      rw [hstep]
      right
      exact ⟨.endOfFileError, rfl⟩

/-- Claim C6.  The freelist load scan of FileHandler._load_page_gc compares
the bytes object returned by read_from_file against the int 2; in Python 3
a bytes value never equals an int, so no page — deprecated or not — is ever
yielded into the freelist, for any file, page size and page count.  In the
concrete two-page file demoFile, page 1 carries the DEPRECATED type byte 2
at its boundary and still the loaded freelist is empty, contradicting the
claim (and the source's own comment naming _PageType.DEPRECATED_PAGE); as a
consequence next_available_page can never reuse such a page and always
grows the high-water counter. -/
theorem C6_freelist_scan_never_collects :
    (∀ file ps lp, (GC.load_page_gc file ps lp).toOption.getD [] = []) ∧
    read_from_file demoFile 4 5 = .ok [2] ∧
    GC.load_page_gc demoFile 4 2 = .ok [] := by
  refine ⟨fun file ps lp => ?_, by decide, by decide⟩
  rcases scanFold_preserves_acc file ps (List.range' 1 (lp - 1)) [] with h | ⟨e, h⟩ <;>
    simp [GC.load_page_gc, h, Except.toOption]

/-- Length of int.to_bytes(w, 'big'). -/
theorem natToBytes_length (w n : Nat) : (natToBytes w n).length = w := by
  induction w generalizing n with
  | zero => rfl
  | succ w ih => simp [natToBytes, ih]

/-- A write whose seek position starts at the end of the file appends. -/
theorem writeAt_append (f d : List Nat) : writeAt f f.length d = f ++ d := by
  simp [writeAt, List.drop_eq_nil_of_le (by omega : f.length ≤ f.length + d.length)]

/-- A write that fits inside the file keeps its length. -/
theorem writeAt_length (f d : List Nat) (pos : Nat) (h : pos + d.length ≤ f.length) :
    (writeAt f pos d).length = f.length := by
  simp [writeAt]
  omega

/-- Looking up the key just set. -/
theorem alGet?_alSet_self {α : Type} (l : List (Nat × α)) (k : Nat) (v : α) :
    alGet? (alSet l k v) k = some v := by
  induction l with
  | nil => simp [alSet, alGet?, List.find?]
  | cons p rest ih =>
    by_cases hp : p.1 = k
    · simp [alSet, hp, alGet?, List.find?]
    · have : (p.1 == k) = false := beq_eq_false_iff_ne.mpr hp
      simp only [alSet, beq_iff_eq, hp, if_false]
      simpa [alGet?, List.find?_cons, this] using ih

/-- Claim C5, counterexample.  In the WAL state w1 — a fresh WAL after
set_page(1, ...) — page 1 has a PAGE frame recorded in the not_committed
table (at offset 8) and none in committed; the claim then requires the next
set_page(1, ...) to overwrite that frame in place, but the code appends a
whole new 9-byte frame at the end of the log (the in-place branch of
_add_frame only tests the committed table), growing the file from 12 to 21
bytes and pointing not_committed at the new frame. -/
theorem C5_counterexample_not_committed_appends :
    alHas WAL.w1.not_committed 1 = true ∧
    alHas WAL.w1.committed 1 = false ∧
    WAL.w1.file.length = 12 ∧
    (WAL.set_page WAL.w1 1 [8, 8, 8, 8]).toOption.map
      (fun s => (s.file.length, alGet? s.not_committed 1)) =
      some (21, some 17) := by
  decide

/-- Claim C5 as amended: set_page(p, bytes) overwrites p's frame in place
only when p is recorded in the committed table; when p's only frame is in
not_committed, or p has no frame at all, a new frame is appended at the end
of the log; in both cases the not_committed table afterwards maps p to the
offset of its latest frame. -/
theorem C5_amended_overwrite_only_for_committed (s : WAL.WALState) (p : Nat)
    (d : List Nat) (hp : p ≠ 0) (hd : d.length = s.page_size) (hd0 : d ≠ []) :
    (alHas s.committed p = false →
      ∃ s', WAL.set_page s p d = .ok s' ∧
        s'.file = s.file ++ (natToBytes 1 1 ++ natToBytes 4 p ++ d) ∧
        alGet? s'.not_committed p = some (s.file.length + 5) ∧
        s'.committed = s.committed) ∧
    (∀ off, alGet? s.committed p = some off → 5 ≤ off →
      off + s.page_size ≤ s.file.length →
      ∃ s', WAL.set_page s p d = .ok s' ∧
        s'.file.length = s.file.length ∧
        alGet? s'.not_committed p = some off ∧
        s'.committed = s.committed) := by
  have hlen : (natToBytes 1 1 ++ natToBytes 4 p ++ d).length = 5 + d.length := by
    simp [natToBytes_length]
    omega
  have hstep : ∀ seek,
      seek = (if alHas s.committed p = true then (alGet? s.committed p).getD 0 - 5
        else s.file.length) →
      WAL.set_page s p d =
        .ok (WAL.index_frame { s with file := writeAt s.file seek (natToBytes 1 1 ++ natToBytes 4 p ++ d) } .page p (seek + (5 + d.length) - s.page_size)) := by
    intro seek hseek
    subst hseek
    simp only [WAL.set_page, WAL.add_frame]
    rw [if_neg (by simp [hp, hd0]), if_neg (by simp [hd])]
    simp only [Option.getD_some, hlen, ne_eq, not_true_eq_false, if_false,
      eq_self_iff_true, and_true, FRAME_TYPE_LENGTH_LIMIT, PAGE_ADDRESS_LIMIT,
      WAL.FrameType.val, Nat.sub_sub, Nat.reduceAdd]
  constructor
  · intro habs
    have hs := hstep s.file.length (by rw [habs]; simp)
    rw [hs]
    simp only [WAL.index_frame]
    refine ⟨_, rfl, ?_, ?_, rfl⟩
    · simp [writeAt_append]
    · have heq : s.file.length + (5 + d.length) - s.page_size = s.file.length + 5 := by
        rw [hd]; omega
      simp [heq, alGet?_alSet_self]
  · intro off hoff h5 hfit
    have hhas : alHas s.committed p = true := by simp [alHas, hoff]
    have hs := hstep (off - 5) (by rw [hhas]; simp [hoff])
    rw [hs]
    simp only [WAL.index_frame]
    refine ⟨_, rfl, ?_, ?_, rfl⟩
    · refine writeAt_length _ _ _ ?_
      rw [hlen, hd]
      omega
    · have heq : off - 5 + (5 + d.length) - s.page_size = off := by
        rw [hd]; omega
      simp [heq, alGet?_alSet_self]

/-- Witness for the amended C5 theorem at the concrete committed-state w1c:
the second set_page of page 1 overwrites the existing frame in place — the
12-byte file keeps its length and not_committed points at offset 8. -/
theorem C5_amended_witness :
    ∃ s', WAL.set_page WAL.w1c 1 [7, 7, 7, 7] = .ok s' ∧
      s'.file.length = WAL.w1c.file.length ∧
      alGet? s'.not_committed 1 = some 8 ∧
      s'.committed = WAL.w1c.committed :=
  (C5_amended_overwrite_only_for_committed WAL.w1c 1 [7, 7, 7, 7]
    (by decide) (by decide) (by decide)).2 8 (by decide) (by decide) (by decide)

/-- Claim C7.  For a node whose contents exceed the order, BNode.split takes
mid = |contents| / 2 (a genuine index, since the node is nonempty), keeps
contents[0..mid-1] and children[0..mid] in the original node, moves
contents[mid+1..] and children[mid+1..] to the sibling, puts the sibling on
the page freshly obtained from next_available_page, and returns the pair at
index mid as the separator. -/
theorem C7_split_indices (g : ND.GCState) (n : ND.BNodeD) (order : Nat)
    (h : n.contents.length > order) :
    n.contents.length / 2 < n.contents.length ∧
    ND.split g n =
      ({ n with
         contents := n.contents.take (n.contents.length / 2),
         children := n.children.take (n.contents.length / 2 + 1) },
       { contents := n.contents.drop (n.contents.length / 2 + 1),
         children := n.children.drop (n.contents.length / 2 + 1),
         page := (ND.next_available_page g).1 },
       n.contents.getD (n.contents.length / 2) (0, 0),
       (ND.next_available_page g).2) := by
  refine ⟨Nat.div_lt_self (by omega) (by omega), ?_⟩
  rfl

/-- Witness for C7 at a concrete three-pair branch node with an empty
freelist: the separator is the middle pair, the sibling gets the right
pair and the two right children on the bumped page 8. -/
theorem C7_split_witness :
    (3 : Nat) / 2 < 3 ∧
    ND.split ⟨[], 7⟩ ⟨[(1, 10), (2, 20), (3, 30)], [100, 101, 102, 103], 9⟩ =
      (⟨[(1, 10)], [100, 101], 9⟩, ⟨[(3, 30)], [102, 103], 8⟩, (2, 20),
        ⟨[], 8⟩) :=
  C7_split_indices ⟨[], 7⟩ ⟨[(1, 10), (2, 20), (3, 30)], [100, 101, 102, 103], 9⟩ 2
    (by decide)

/-- Association-list lookup on a cons cell whose key matches. -/
theorem alGet?_cons_eq {α : Type} (p : Nat × α) (rest : List (Nat × α)) (k : Nat)
    (hp : p.1 = k) : alGet? (p :: rest) k = some p.2 := by
  simp [alGet?, List.find?_cons_of_pos, hp]

/-- Association-list lookup skips a cons cell whose key differs. -/
theorem alGet?_cons_ne {α : Type} (p : Nat × α) (rest : List (Nat × α)) (k : Nat)
    (hp : p.1 ≠ k) : alGet? (p :: rest) k = alGet? rest k := by
  have : (p.1 == k) = false := beq_eq_false_iff_ne.mpr hp
  simp [alGet?, List.find?_cons, this]

/-- A key outside l is absent from the association list built over l. -/
theorem alGet?_map_none {α : Type} (l : List Nat) (f : Nat → α) (key : Nat)
    (hk : key ∉ l) :
    alGet? (l.map (fun k => (k, f k))) key = none := by
  induction l with
  | nil => rfl
  | cons a l ih =>
    have ha : a ≠ key := fun hh => hk (hh ▸ List.mem_cons_self a l)
    rw [List.map_cons, alGet?_cons_ne _ _ _ ha]
    exact ih (fun hm => hk (List.mem_cons_of_mem a hm))

/-- Setting an absent key appends the binding. -/
theorem alSet_fresh {α : Type} (l : List (Nat × α)) (k : Nat) (v : α)
    (h : alGet? l k = none) : alSet l k v = l ++ [(k, v)] := by
  induction l with
  | nil => rfl
  | cons p rest ih =>
    by_cases hp : p.1 = k
    · rw [alGet?_cons_eq p rest k hp] at h
      exact absurd h (by simp)
    · rw [alGet?_cons_ne p rest k hp] at h
      simp only [alSet, beq_iff_eq, hp, if_false, List.cons_append, List.cons.injEq,
        true_and]
      exact ih h

/-- Below capacity, the next put of the fresh key j+1 just extends the store
and the recency list. -/
theorem lru_setItem_fresh_ok (c j : Nat) (hj : j < c) :
    LRU.setItem (lruStateJ c j) (j + 1) 42 = .ok (lruStateJ c (j + 1)) := by
  have hfresh : alGet? ((List.range' 1 j).map (fun k => (k, 42))) (j + 1) = none := by
    refine alGet?_map_none _ _ _ ?_
    simp [List.mem_range']
    omega
  have hset : alSet ((List.range' 1 j).map (fun k => (k, 42))) (j + 1) 42 =
      (List.range' 1 (j + 1)).map (fun k => (k, 42)) := by
    rw [alSet_fresh _ _ _ hfresh, List.range'_concat]
    simp [Nat.add_comm 1 j]
  have hcont : (0 :: List.range' 1 j).contains (j + 1) = false := by
    simp [List.mem_range']
    omega
  have hlru : ((0 : Nat) :: List.range' 1 j) ++ [j + 1] = 0 :: List.range' 1 (j + 1) := by
    rw [List.range'_concat]
    simp [Nat.add_comm 1 j]
  simp only [LRU.setItem, lruStateJ, hset, LRU.refresh, hcont, Bool.false_eq_true,
    if_false, hlru]
  rw [if_neg (by simp [LRU.overCap]; omega)]

/-- At capacity, the put of key c+1 evicts: the head of the recency list is
the never-stored key 0, and dict.pop(0) raises KeyError. -/
theorem lru_setItem_overflow (c : Nat) :
    LRU.setItem (lruStateJ c c) (c + 1) 42 = .error .keyError := by
  have hfresh : alGet? ((List.range' 1 c).map (fun k => (k, 42))) (c + 1) = none := by
    refine alGet?_map_none _ _ _ ?_
    simp [List.mem_range']
    omega
  have hset : alSet ((List.range' 1 c).map (fun k => (k, 42))) (c + 1) 42 =
      (List.range' 1 (c + 1)).map (fun k => (k, 42)) := by
    rw [alSet_fresh _ _ _ hfresh, List.range'_concat]
    simp [Nat.add_comm 1 c]
  have hcont : (0 :: List.range' 1 c).contains (c + 1) = false := by
    simp [List.mem_range']
    omega
  have hzero : alGet? ((List.range' 1 (c + 1)).map (fun k => (k, 42))) 0 = none := by
    refine alGet?_map_none _ _ _ ?_
    simp [List.mem_range']
    omega
  simp only [LRU.setItem, lruStateJ, hset, LRU.refresh, hcont, Bool.false_eq_true,
    if_false]
  rw [if_pos (by simp [LRU.overCap])]
  simp [hzero]

/-- Running the remaining puts from the state with j keys stored ends in the
KeyError eviction. -/
theorem lru_putMany_overflow (c : Nat) :
    ∀ m j, 1 ≤ m → j + m = c + 1 →
    LRU.putMany (lruStateJ c j) ((List.range' (j + 1) m).map (fun k => (k, 42))) =
      .error .keyError := by
  intro m
  induction m with
  | zero =>
    intro j h1 _
    omega
  | succ m ih =>
    intro j _ hsum
    rw [List.range'_succ, List.map_cons, LRU.putMany]
    by_cases hm : m = 0
    · subst hm
      have hj : j = c := by omega
      rw [hj, lru_setItem_overflow c]
    · have hj : j < c := by omega
      rw [lru_setItem_fresh_ok c j hj]
      exact ih (j + 1) (by omega) (by omega)

/-- Claim C9.  For every finite capacity c ≥ 1 (capacity 0 is turned into the
unlimited nan by the constructor), the sequence of one get of the
never-stored key 0 followed by c+1 puts of the distinct keys 1..c+1 makes
the eviction inside __setitem__ call dict.pop(0) on a cache that never
stored 0, raising KeyError: put is not total on reachable cache states. -/
theorem C9_lru_eviction_keyerror (c : Nat) (hc : 1 ≤ c) :
    LRU.overfillSeq c = .error .keyError := by
  have hinit : (LRU.lruGet (LRU.init c) 0 none).2 = lruStateJ c 0 := by
    have : ¬(c = 0) := by omega
    simp [LRU.lruGet, LRU.init, LRU.refresh, lruStateJ, this]
  have hkeys : (List.range (c + 1)).map (fun i => (i + 1, 42)) =
      (List.range' 1 (c + 1)).map (fun k => (k, (42 : Nat))) := by
    rw [List.range'_eq_map_range, List.map_map]
    refine List.map_congr_left ?_
    intro a _
    simp [Nat.add_comm 1 a]
  rw [LRU.overfillSeq, hinit, hkeys]
  exact lru_putMany_overflow c (c + 1) 0 (by omega) (by omega)

/-- Witness for C9 at capacity 3. -/
theorem C9_witness : 1 ≤ 3 ∧ LRU.overfillSeq 3 = .error .keyError :=
  ⟨by decide, C9_lru_eviction_keyerror 3 (by decide)⟩


/-- The keys column of a Python zip. -/
theorem zip_map_fst {α β : Type} (a : List α) (b : List β) :
    (a.zip b).map Prod.fst = a.take b.length := by
  induction a generalizing b with
  | nil => simp
  | cons x xs ih =>
    cases b with
    | nil => simp
    | cons y ys => simp [ih]

/-- The values column of a Python zip. -/
theorem zip_map_snd {α β : Type} (a : List α) (b : List β) :
    (a.zip b).map Prod.snd = b.take a.length := by
  induction a generalizing b with
  | nil => simp
  | cons x xs ih =>
    cases b with
    | nil => simp
    | cons y ys => simp [ih]

/-- _path_to only inspects keys and children, so it is unchanged by an
in-place value overwrite. -/
theorem pathToLoop_skeleton (h h' : Heap) (hsk : SameSkeleton h h') (key : Nat) :
    ∀ fuel cur acc, pathToLoop h' key fuel cur acc = pathToLoop h key fuel cur acc := by
  intro fuel
  induction fuel with
  | zero => intro cur acc; rfl
  | succ fuel ih =>
    intro cur acc
    obtain ⟨hk, hc, _⟩ := hsk cur
    simp only [pathToLoop, hk, hc]
    split
    · rfl
    · split
      · rfl
      · exact ih _ _

/-- _present only inspects keys. -/
theorem present_skeleton (h h' : Heap) (hsk : SameSkeleton h h')
    (anc : List (Nat × Nat)) (key : Nat) : present h' anc key = present h anc key := by
  obtain ⟨hk, _, _⟩ := hsk (anc.getLastD (0, 0)).1
  simp only [present, hk]

/-- Folding iterStep over structurally matching rows with key-equal
accumulators yields key-equal results. -/
theorem iterFold_keys (f f' : Nat → Option (List (Nat × Nat)))
    (hf : ∀ nid, (f' nid).map (List.map Prod.fst) = (f nid).map (List.map Prod.fst)) :
    ∀ (combos combos' : List (Nat × (Nat × Nat))),
      combos'.map Prod.fst = combos.map Prod.fst →
      combos'.map (fun c => c.2.1) = combos.map (fun c => c.2.1) →
      ∀ (acc acc' : Option (List (Nat × Nat))),
        acc'.map (List.map Prod.fst) = acc.map (List.map Prod.fst) →
        (combos'.foldl (iterStep f') acc').map (List.map Prod.fst) =
          (combos.foldl (iterStep f) acc).map (List.map Prod.fst) := by
  intro combos
  induction combos with
  | nil =>
    intro combos' h1 _ acc acc' hacc
    have hnil : combos' = [] := by
      simpa using congrArg List.length h1
    subst hnil
    simpa using hacc
  | cons c ct ih =>
    intro combos' h1 h2 acc acc' hacc
    cases combos' with
    | nil => exact absurd h1 (by simp)
    | cons c' ct' =>
      simp only [List.map_cons, List.cons.injEq] at h1 h2
      obtain ⟨hc1, hct1⟩ := h1
      obtain ⟨hc2, hct2⟩ := h2
      simp only [List.foldl_cons]
      refine ih ct' hct1 hct2 (iterStep f acc c) (iterStep f' acc' c') ?_
      cases acc with
      | none =>
        have hacc' : acc' = none := by
          cases acc' with
          | none => rfl
          | some l' => simp at hacc
        subst hacc'
        rfl
      | some l =>
        cases acc' with
        | none => simp at hacc
        | some l' =>
          have hll : l'.map Prod.fst = l.map Prod.fst := by simpa using hacc
          have hrec := hf c.1
          simp only [iterStep, hc1]
          cases hfc : f c.1 with
          | none =>
            rw [hfc] at hrec
            have : f' c.1 = none := by
              cases hfc' : f' c.1 with
              | none => rfl
              | some sub' => rw [hfc'] at hrec; simp at hrec
            simp [iterStep, hfc, this]
          | some sub =>
            rw [hfc] at hrec
            cases hfc' : f' c.1 with
            | none => rw [hfc'] at hrec; simp at hrec
            | some sub' =>
              rw [hfc'] at hrec
              have hss : sub'.map Prod.fst = sub.map Prod.fst := by simpa using hrec
              simp [iterStep, hfc, hfc', hll, hss, hc2]

/-- The keys yielded by the in-order traversal only depend on the heap
skeleton: an in-place value overwrite leaves them unchanged. -/
theorem iterNode_keys_skeleton (h h' : Heap) (hsk : SameSkeleton h h') :
    ∀ fuel nid, (iterNode h' fuel nid).map (List.map Prod.fst) =
      (iterNode h fuel nid).map (List.map Prod.fst) := by
  intro fuel
  induction fuel with
  | zero => intro nid; rfl
  | succ fuel ih =>
    intro nid
    obtain ⟨hk, hc, hv⟩ := hsk nid
    simp only [iterNode, hk, hc]
    by_cases h1 : (hget h nid).children = []
    · simp only [h1, if_true]
      simp [zip_map_fst, hv]
    · simp only [h1, if_false]
      have hfold := iterFold_keys (fun c => iterNode h fuel c) (fun c => iterNode h' fuel c)
        (fun nid2 => ih nid2)
        ((hget h nid).children.zip ((hget h nid).keys.zip (hget h nid).values))
        ((hget h nid).children.zip ((hget h nid).keys.zip (hget h' nid).values))
        ?_ ?_ (some []) (some []) rfl
      · cases hrun : ((hget h nid).children.zip
            ((hget h nid).keys.zip (hget h nid).values)).foldl
            (iterStep (fun c => iterNode h fuel c)) (some []) with
        | none =>
          rw [hrun] at hfold
          have : ((hget h nid).children.zip
              ((hget h nid).keys.zip (hget h' nid).values)).foldl
              (iterStep (fun c => iterNode h' fuel c)) (some []) = none := by
            cases hrun' : ((hget h nid).children.zip
                ((hget h nid).keys.zip (hget h' nid).values)).foldl
                (iterStep (fun c => iterNode h' fuel c)) (some []) with
            | none => rfl
            | some l' => rw [hrun'] at hfold; simp at hfold
          simp [hrun, this]
        | some l =>
          rw [hrun] at hfold
          cases hrun' : ((hget h nid).children.zip
              ((hget h nid).keys.zip (hget h' nid).values)).foldl
              (iterStep (fun c => iterNode h' fuel c)) (some []) with
          | none => rw [hrun'] at hfold; simp at hfold
          | some l' =>
            rw [hrun'] at hfold
            have hll : l'.map Prod.fst = l.map Prod.fst := by simpa using hfold
            simp only [hrun, hrun']
            have hlast := ih ((hget h nid).children.getLast?.getD 0)
            cases hlast1 : iterNode h fuel ((hget h nid).children.getLast?.getD 0) with
            | none =>
              rw [hlast1] at hlast
              have : iterNode h' fuel ((hget h nid).children.getLast?.getD 0) = none := by
                cases hx : iterNode h' fuel ((hget h nid).children.getLast?.getD 0) with
                | none => rfl
                | some y => rw [hx] at hlast; simp at hlast
              simp [hlast1, this]
            | some la =>
              rw [hlast1] at hlast
              cases hlast2 : iterNode h' fuel ((hget h nid).children.getLast?.getD 0) with
              | none => rw [hlast2] at hlast; simp at hlast
              | some la' =>
                rw [hlast2] at hlast
                have hla : la'.map Prod.fst = la.map Prod.fst := by simpa using hlast
                simp [hlast1, hlast2, hll, hla]
      · rw [zip_map_fst, zip_map_fst]
        have : ((hget h nid).keys.zip (hget h' nid).values).length =
            ((hget h nid).keys.zip (hget h nid).values).length := by
          simp [List.length_zip, hv]
        rw [this]
      · have hone : ∀ (ch : List Nat) (ps : List (Nat × Nat)),
            (ch.zip ps).map (fun c => c.2.1) = (ps.map Prod.fst).take ch.length := by
          intro ch
          induction ch with
          | nil => intro ps; simp
          | cons x xs ihc =>
            intro ps
            cases ps with
            | nil => simp
            | cons p pt => simp [ihc]
        rw [hone, hone, zip_map_fst, zip_map_fst, hv]


/-- Reading back the element just set in place. -/
theorem getD_set_self (l : List Nat) (i v : Nat) (h : i < l.length) :
    (l.set i v).getD i 0 = v := by
  induction l generalizing i with
  | nil => simp at h
  | cons a t ih =>
    cases i with
    | zero => rfl
    | succ i => simpa [List.getD] using ih i (by simpa using h)

/-- An in-place value overwrite changes no key, child list or value count. -/
theorem skeleton_of_value_set (h : Heap) (nid idx v : Nat) :
    SameSkeleton h (hmod h nid (fun n => { n with values := n.values.set idx v })) := by
  intro i
  by_cases hi : nid = i
  · subst hi
    rw [hmod, hget_hset_same]
    simp
  · rw [hmod, hget_hset_other _ _ _ _ hi]
    exact ⟨rfl, rfl, rfl⟩

/-- iterKeys is the fst-projection of the traversal. -/
theorem iterKeys_eq_map (f : Nat) (s : TreeState) :
    iterKeys f s = (iterNode s.heap f s.root).map (List.map Prod.fst) := by
  rw [iterKeys]
  cases iterNode s.heap f s.root <;> rfl

/-- get on the state whose heap was patched by one in-place value overwrite
at the slot the search path for k ends at: the search finds the same slot
and returns the patched value, under either generator semantics. -/
theorem get_after_value_patch (s : TreeState) (fuel k v dflt : Nat)
    (anc : List (Nat × Nat))
    (hpath : path_to fuel s k = some anc)
    (hpres : present s.heap anc k = true)
    (hidx : (anc.getLastD (0, 0)).2 < (hget s.heap (anc.getLastD (0, 0)).1).values.length)
    (pep : Bool) (cnt : Int) :
    BT.get pep fuel
      { s with
        heap := hmod s.heap (anc.getLastD (0, 0)).1
          (fun n => { n with values := n.values.set (anc.getLastD (0, 0)).2 v }),
        count := cnt } k dflt = some (.ok v) := by
  have hsk : SameSkeleton s.heap (hmod s.heap (anc.getLastD (0, 0)).1
      (fun n => { n with values := n.values.set (anc.getLastD (0, 0)).2 v })) :=
    skeleton_of_value_set s.heap (anc.getLastD (0, 0)).1 (anc.getLastD (0, 0)).2 v
  have hval : (hget (hmod s.heap (anc.getLastD (0, 0)).1
      (fun n => { n with values := n.values.set (anc.getLastD (0, 0)).2 v }))
      (anc.getLastD (0, 0)).1).values.getD (anc.getLastD (0, 0)).2 0 = v := by
    rw [hmod, hget_hset_same]
    exact getD_set_self _ _ _ hidx
  have hp2 : pathToLoop (hmod s.heap (anc.getLastD (0, 0)).1
      (fun n => { n with values := n.values.set (anc.getLastD (0, 0)).2 v }))
      k fuel s.root [] = some anc := by
    rw [pathToLoop_skeleton s.heap _ hsk k]
    exact hpath
  have hpres2 : present (hmod s.heap (anc.getLastD (0, 0)).1
      (fun n => { n with values := n.values.set (anc.getLastD (0, 0)).2 v })) anc k = true := by
    rw [present_skeleton s.heap _ hsk]
    exact hpres
  simp only [BT.get, getRaw, path_to, hp2, hpres2, if_true]
  simpa using hval

/-- Claim C4.  For a tree state in which key k is present (its search path
ends at a node really holding a slot for k): insert(k, v, override=False)
raises — the embedded ValueError of btree.py line 241 — and returns the
state unchanged, no mutation having happened before the raise; and
insert(k, v, override=True) succeeds, after which get(k) returns v under
either generator semantics while the key column of the iteration — hence
the set of entries — and the root and the allocation counter are untouched:
the existing entry was mutated in place and no new entry created. -/
theorem C4_duplicate_raises_override_updates_in_place (fuel : Nat) (s : TreeState)
    (k v dflt : Nat) (anc : List (Nat × Nat))
    (hpath : path_to fuel s k = some anc)
    (hpres : present s.heap anc k = true)
    (hidx : (anc.getLastD (0, 0)).2 < (hget s.heap (anc.getLastD (0, 0)).1).values.length) :
    BT.insert fuel s k v false = some (s, some .valueError) ∧
    ∃ s', BT.insert fuel s k v true = some (s', none) ∧
      get true fuel s' k dflt = some (.ok v) ∧
      get false fuel s' k dflt = some (.ok v) ∧
      (∀ f2, iterKeys f2 s' = iterKeys f2 s) ∧
      s'.root = s.root ∧ s'.nextId = s.nextId := by
  have hsk : SameSkeleton s.heap (hmod s.heap (anc.getLastD (0, 0)).1
      (fun n => { n with values := n.values.set (anc.getLastD (0, 0)).2 v })) :=
    skeleton_of_value_set s.heap (anc.getLastD (0, 0)).1 (anc.getLastD (0, 0)).2 v
  constructor
  · simp [BT.insert, hpath, hpres]
  · refine ⟨{ s with
      heap := hmod s.heap (anc.getLastD (0, 0)).1
        (fun n => { n with values := n.values.set (anc.getLastD (0, 0)).2 v }),
      count := s.count + 1 }, ?_, ?_, ?_, ?_, rfl, rfl⟩
    · simp [BT.insert, hpath, hpres]
    · exact get_after_value_patch s fuel k v dflt anc hpath hpres hidx true (s.count + 1)
    · exact get_after_value_patch s fuel k v dflt anc hpath hpres hidx false (s.count + 1)
    · intro f2
      rw [iterKeys_eq_map, iterKeys_eq_map]
      exact iterNode_keys_skeleton s.heap _ hsk f2 s.root

/-- Witness for C4 on the one-pair tree t51 (5 -> 50): re-inserting key 5
without override raises and leaves the state alone; with override the value
becomes 60, gets see 60, and the iterated keys are still just [5]. -/
theorem C4_witness :
    BT.insert 100 t51 5 60 false = some (t51, some .valueError) ∧
    ∃ s', BT.insert 100 t51 5 60 true = some (s', none) ∧
      get true 100 s' 5 9 = some (.ok 60) ∧
      get false 100 s' 5 9 = some (.ok 60) ∧
      (∀ f2, iterKeys f2 s' = iterKeys f2 t51) ∧
      s'.root = t51.root ∧ s'.nextId = t51.nextId :=
  C4_duplicate_raises_override_updates_in_place 100 t51 5 60 9 [(0, 0)]
    (by decide) (by decide) (by decide)

/-- Claim C10.  A successful insert(k, v, override=True) on a state already
holding k bumps _count by one (btree.py line 251 sits outside the override
branch) while the iterated key sequence is unchanged, so whenever _count
agreed with the number of distinct stored keys before, len(tree) strictly
exceeds that number afterwards. -/
theorem C10_override_insert_inflates_count (fuel f2 : Nat) (s : TreeState)
    (k v : Nat) (anc : List (Nat × Nat)) (keysList : List Nat)
    (hpath : path_to fuel s k = some anc)
    (hpres : present s.heap anc k = true)
    (hkeys : iterKeys f2 s = some keysList)
    (hcount : s.count = (keysList.dedup.length : Int)) :
    ∃ s', BT.insert fuel s k v true = some (s', none) ∧
      s'.count = s.count + 1 ∧
      iterKeys f2 s' = some keysList ∧
      ((keysList.dedup.length : Int) < s'.count) := by
  have hsk : SameSkeleton s.heap (hmod s.heap (anc.getLastD (0, 0)).1
      (fun n => { n with values := n.values.set (anc.getLastD (0, 0)).2 v })) :=
    skeleton_of_value_set s.heap (anc.getLastD (0, 0)).1 (anc.getLastD (0, 0)).2 v
  refine ⟨{ s with
      heap := hmod s.heap (anc.getLastD (0, 0)).1
        (fun n => { n with values := n.values.set (anc.getLastD (0, 0)).2 v }),
      count := s.count + 1 }, ?_, rfl, ?_, ?_⟩
  · simp [BT.insert, hpath, hpres]
  · rw [iterKeys_eq_map]
    have hiter := iterNode_keys_skeleton s.heap _ hsk f2 s.root
    rw [hiter]
    rw [iterKeys_eq_map] at hkeys
    exact hkeys
  · rw [show (({ s with
      heap := hmod s.heap (anc.getLastD (0, 0)).1
        (fun n => { n with values := n.values.set (anc.getLastD (0, 0)).2 v }),
      count := s.count + 1 } : TreeState).count) = s.count + 1 from rfl, hcount]
    omega

/-- Witness for C10 on t51: count goes from 1 to 2 while only the key 5 is
stored. -/
theorem C10_witness :
    ∃ s', BT.insert 100 t51 5 60 true = some (s', none) ∧
      s'.count = t51.count + 1 ∧
      iterKeys 100 s' = some [5] ∧
      ((([5] : List Nat).dedup.length : Int) < s'.count) :=
  C10_override_insert_inflates_count 100 100 t51 5 60 [(0, 0)] [5]
    (by decide) (by decide) (by decide) (by decide)


/-- Claim C8.  Dispatch order of _BNode.grow for a node sid whose parent is
the last ancestors entry (pid, pIdx), stated for any heap in which the
parent and the two siblings the source reads are distinct objects (as they
are in every real tree).  (1) When a right sibling exists and holds more
than min_elements keys, grow borrows from it through the parent — one key
moves from the right sibling into the parent slot and the old parent key is
appended to sid — and nothing else happens: no merge, no recursion, root
and count unchanged.  (2) Otherwise, when a left sibling exists and holds
more than the minimum, grow borrows from it symmetrically.  (3) Otherwise,
when a left sibling exists, grow folds the separator and sid into the left
sibling, the parent losing one key and one child; then, if the parent
dropped below min_elements: grow recurses on the parent when ancestors
remain, and when the parent is the now-empty root the merged left sibling
becomes the new root.  (4) Otherwise (pIdx = 0) grow merges the right
sibling into sid the same way, and if the parent is the now-empty root, sid
becomes the new root. -/
theorem C8_grow_dispatch_order (s : TreeState) (sid pid pIdx rsid lsid : Nat)
    (anc : List (Nat × Nat))
    (hrdef : rsid = (hget s.heap pid).children.getD (pIdx + 1) 0)
    (hldef : lsid = (hget s.heap pid).children.getD (pIdx - 1) 0)
    (hsp : sid ≠ pid) (hsr : sid ≠ rsid) (hpr : pid ≠ rsid)
    (hsl : sid ≠ lsid) (hpl : pid ≠ lsid) :
    ((pIdx + 1 < (hget s.heap pid).children.length ∧
        min_elements s.order < (hget s.heap rsid).keys.length) →
      grow (anc ++ [(pid, pIdx)]).length s sid (anc ++ [(pid, pIdx)]) =
        { s with heap := lateral s.heap rsid pid (pIdx + 1) sid pIdx } ∧
      (hget (lateral s.heap rsid pid (pIdx + 1) sid pIdx) sid).keys =
        (hget s.heap sid).keys ++ [(hget s.heap pid).keys.getD pIdx 0] ∧
      (hget (lateral s.heap rsid pid (pIdx + 1) sid pIdx) pid).keys =
        (hget s.heap pid).keys.set pIdx ((hget s.heap rsid).keys.headD 0) ∧
      (hget (lateral s.heap rsid pid (pIdx + 1) sid pIdx) rsid).keys =
        (hget s.heap rsid).keys.tail ∧
      (hget (lateral s.heap rsid pid (pIdx + 1) sid pIdx) pid).children =
        (hget s.heap pid).children) ∧
    (¬(pIdx + 1 < (hget s.heap pid).children.length ∧
        min_elements s.order < (hget s.heap rsid).keys.length) →
      (pIdx ≠ 0 ∧ min_elements s.order < (hget s.heap lsid).keys.length) →
      grow (anc ++ [(pid, pIdx)]).length s sid (anc ++ [(pid, pIdx)]) =
        { s with heap := lateral s.heap lsid pid (pIdx - 1) sid pIdx } ∧
      (hget (lateral s.heap lsid pid (pIdx - 1) sid pIdx) sid).keys =
        (hget s.heap pid).keys.getD (pIdx - 1) 0 :: (hget s.heap sid).keys ∧
      (hget (lateral s.heap lsid pid (pIdx - 1) sid pIdx) pid).keys =
        (hget s.heap pid).keys.set (pIdx - 1) ((hget s.heap lsid).keys.getLastD 0) ∧
      (hget (lateral s.heap lsid pid (pIdx - 1) sid pIdx) lsid).keys =
        (hget s.heap lsid).keys.dropLast ∧
      (hget (lateral s.heap lsid pid (pIdx - 1) sid pIdx) pid).children =
        (hget s.heap pid).children) ∧
    (¬(pIdx + 1 < (hget s.heap pid).children.length ∧
        min_elements s.order < (hget s.heap rsid).keys.length) →
      ¬(pIdx ≠ 0 ∧ min_elements s.order < (hget s.heap lsid).keys.length) →
      pIdx ≠ 0 →
      grow (anc ++ [(pid, pIdx)]).length s sid (anc ++ [(pid, pIdx)]) =
        (if (hget (mergeLeftHeap s.heap sid pid lsid pIdx) pid).keys.length <
            min_elements s.order then
          (if anc ≠ [] then
            grow anc.length { s with heap := mergeLeftHeap s.heap sid pid lsid pIdx } pid anc
           else if (hget (mergeLeftHeap s.heap sid pid lsid pIdx) pid).keys = [] then
            { s with heap := mergeLeftHeap s.heap sid pid lsid pIdx, root := lsid }
           else { s with heap := mergeLeftHeap s.heap sid pid lsid pIdx })
         else { s with heap := mergeLeftHeap s.heap sid pid lsid pIdx }) ∧
      (hget (mergeLeftHeap s.heap sid pid lsid pIdx) lsid).keys =
        (hget s.heap lsid).keys ++
          [(hget s.heap pid).keys.getD (pIdx - 1) 0] ++ (hget s.heap sid).keys ∧
      (hget (mergeLeftHeap s.heap sid pid lsid pIdx) pid).keys =
        (hget s.heap pid).keys.eraseIdx (pIdx - 1) ∧
      (hget (mergeLeftHeap s.heap sid pid lsid pIdx) pid).children =
        (hget s.heap pid).children.eraseIdx pIdx) ∧
    (¬(pIdx + 1 < (hget s.heap pid).children.length ∧
        min_elements s.order < (hget s.heap rsid).keys.length) →
      ¬(pIdx ≠ 0 ∧ min_elements s.order < (hget s.heap lsid).keys.length) →
      pIdx = 0 →
      grow (anc ++ [(pid, pIdx)]).length s sid (anc ++ [(pid, pIdx)]) =
        (if (hget (mergeRightHeap s.heap sid pid rsid pIdx) pid).keys.length <
            min_elements s.order then
          (if anc ≠ [] then
            grow anc.length { s with heap := mergeRightHeap s.heap sid pid rsid pIdx } pid anc
           else if (hget (mergeRightHeap s.heap sid pid rsid pIdx) pid).keys = [] then
            { s with heap := mergeRightHeap s.heap sid pid rsid pIdx, root := sid }
           else { s with heap := mergeRightHeap s.heap sid pid rsid pIdx })
         else { s with heap := mergeRightHeap s.heap sid pid rsid pIdx }) ∧
      (hget (mergeRightHeap s.heap sid pid rsid pIdx) sid).keys =
        (hget s.heap sid).keys ++
          [(hget s.heap pid).keys.getD pIdx 0] ++ (hget s.heap rsid).keys ∧
      (hget (mergeRightHeap s.heap sid pid rsid pIdx) pid).keys =
        (hget s.heap pid).keys.eraseIdx pIdx ∧
      (hget (mergeRightHeap s.heap sid pid rsid pIdx) pid).children =
        (hget s.heap pid).children.eraseIdx (pIdx + 1)) := by
  have hlen : (anc ++ [(pid, pIdx)]).length = anc.length + 1 := by simp
  have hne : ¬(anc ++ [(pid, pIdx)] = []) := by simp
  refine ⟨?_, ?_, ?_, ?_⟩
  · intro hcondR
    refine ⟨?_, ?_, ?_, ?_, ?_⟩
    · rw [hlen]
      simp only [grow, List.getLastD_concat, List.dropLast_concat]
      rw [if_neg hne, ← hrdef]
      rw [if_pos hcondR]
    all_goals
      have h1 : pIdx < pIdx + 1 := Nat.lt_succ_self pIdx
      by_cases hch : (hget s.heap rsid).children = []
    all_goals
      simp [lateral, h1, hmod, hget_hset_same, hget_hset_other, hsp, hsr, hpr,
        hsp.symm, hsr.symm, hpr.symm, hch]
  · intro hcondR hcondL
    refine ⟨?_, ?_, ?_, ?_, ?_⟩
    · rw [hlen]
      simp only [grow, List.getLastD_concat, List.dropLast_concat]
      rw [if_neg hne, ← hrdef, ← hldef]
      rw [if_neg hcondR, if_pos hcondL]
    all_goals
      have h1 : ¬(pIdx - 1 > pIdx) := by omega
      by_cases hch : (hget s.heap lsid).children = []
    all_goals
      simp [lateral, h1, hmod, hget_hset_same, hget_hset_other, hsp, hsl, hpl,
        hsp.symm, hsl.symm, hpl.symm, hch]
  · intro hcondR hcondL hpz
    refine ⟨?_, ?_, ?_, ?_⟩
    · rw [hlen]
      simp only [grow, List.getLastD_concat, List.dropLast_concat]
      rw [if_neg hne, ← hrdef, ← hldef]
      rw [if_neg hcondR, if_neg hcondL, if_pos hpz, if_pos hpz]
    all_goals
      by_cases hch : (hget s.heap sid).children = []
    all_goals
      simp [mergeLeftHeap, hmod, hget_hset_same, hget_hset_other, hsp, hsl, hpl,
        hsp.symm, hsl.symm, hpl.symm, hch]
  · intro hcondR hcondL hpz
    subst hpz
    refine ⟨?_, ?_, ?_, ?_⟩
    · rw [hlen]
      simp only [grow, List.getLastD_concat, List.dropLast_concat]
      rw [if_neg hne, ← hrdef, ← hldef]
      rw [if_neg hcondR, if_neg hcondL]
      rw [if_neg (by omega : ¬((0 : Nat) ≠ 0)), if_neg (by omega : ¬((0 : Nat) ≠ 0))]
    all_goals
      by_cases hch : (hget s.heap sid).children = []
    all_goals
      simp [mergeRightHeap, hmod, hget_hset_same, hget_hset_other, hsp, hsr, hpr,
        hsp.symm, hsr.symm, hpr.symm, hch]

/-- Witness for C8 on the concrete four-node tree c8State: the empty middle
leaf 2 grows by borrowing from its right sibling 3, which holds two keys
against a minimum of one: key 9 comes down from the parent, key 12 moves
up into it, and leaf 3 keeps only key 15. -/
theorem C8_witness :
    grow ([] ++ [((10 : Nat), (1 : Nat))]).length c8State 2 ([] ++ [(10, 1)]) =
      { c8State with heap := lateral c8State.heap 3 10 2 2 1 } ∧
    (hget (lateral c8State.heap 3 10 2 2 1) 2).keys =
      (hget c8State.heap 2).keys ++ [(hget c8State.heap 10).keys.getD 1 0] ∧
    (hget (lateral c8State.heap 3 10 2 2 1) 10).keys =
      (hget c8State.heap 10).keys.set 1 ((hget c8State.heap 3).keys.headD 0) ∧
    (hget (lateral c8State.heap 3 10 2 2 1) 3).keys =
      (hget c8State.heap 3).keys.tail ∧
    (hget (lateral c8State.heap 3 10 2 2 1) 10).children =
      (hget c8State.heap 10).children :=
  (C8_grow_dispatch_order c8State 2 10 1 3 1 []
    (by decide) (by decide) (by decide) (by decide) (by decide) (by decide)
    (by decide)).1 (by decide)

end Cannon
